import Mathlib

/-!
Shallow embedding of the non-trivial logic of the `openbook-v2-cli` repository:
the transaction Submission Engine (`sendWithRetry`, `confirmTransactionWithPolling`,
`getDynamicPriorityFee` in `src/utils/setup.ts`) and the Market Discovery utility
(`findAllMarkets`, `getVaultBalance` in `src/utils/market.ts`).

The network (RPC) is modelled as an explicit oracle: each network call reads the
next prescribed response from a list supplied to the model.  All definitions are
computable and mirror the control flow of the TypeScript source; time delays
(`setTimeout`) are irrelevant to the properties and are not modelled.
-/

namespace OBClient

namespace Setup

/-- Confirmation status carried by a `getSignatureStatus` response
(`status.value.confirmationStatus`). -/
inductive ConfStatus where
  | processed
  | confirmed
  | finalized
deriving DecidableEq

/-- Mirrors the source check
`confirmationStatus === 'confirmed' || confirmationStatus === 'finalized'`;
`none` models a null `status.value` or an absent `confirmationStatus`. -/
def isConfirmedOrFinalized : Option ConfStatus → Bool
  | some ConfStatus.confirmed => true
  | some ConfStatus.finalized => true
  | _ => false

/-- `maxChecks` in `confirmTransactionWithPolling` (src/utils/setup.ts). -/
def maxChecks : Nat := 10

/-- The polling loop of `confirmTransactionWithPolling`: up to `fuel` (= `maxChecks`)
status queries; each query consumes the next oracle response.  Returns whether a
confirmed/finalized status was observed, together with the list of responses that the
loop actually observed, in order.  An exhausted oracle list models a network that
keeps answering nothing useful for the remaining checks. -/
def confirmPollGo : List (Option ConfStatus) → Nat → Bool × List (Option ConfStatus)
  | _, 0 => (false, [])
  | [], _ + 1 => (false, [])
  | s :: rest, n + 1 =>
    if isConfirmedOrFinalized s then (true, [s])
    else
      let r := confirmPollGo rest n
      (r.1, s :: r.2)

/-- `confirmTransactionWithPolling` (src/utils/setup.ts lines 180-198), as a function of
the oracle of `getSignatureStatus` responses. -/
def confirmTransactionWithPolling (responses : List (Option ConfStatus)) :
    Bool × List (Option ConfStatus) :=
  confirmPollGo responses maxChecks

/-- `BASE_PRIORITY_FEE` (src/utils/setup.ts line 11). -/
def BASE_PRIORITY_FEE : Nat := 10000

/-- `MAX_RETRIES` (src/utils/setup.ts line 12). -/
def MAX_RETRIES : Nat := 10

/-- Outcome of one `getRecentPrioritizationFees` call: the RPC either throws or
returns a list of per-slot `prioritizationFee` samples (non-negative integers). -/
inductive FeesFetch where
  | failure
  | success (fees : List Nat)

/-- `getDynamicPriorityFee` (src/utils/setup.ts lines 66-100) as a function of the
fee-fetch outcome.  BigInt arithmetic on non-negative values is Nat arithmetic;
BigInt division truncates, as Nat division does. -/
def getDynamicPriorityFee : FeesFetch → Nat
  | FeesFetch.failure => BASE_PRIORITY_FEE
  | FeesFetch.success recentFees =>
    if recentFees.length = 0 then BASE_PRIORITY_FEE
    else
      let nonZeroFees := recentFees.filter (fun fee => 0 < fee)
      if nonZeroFees.length = 0 then BASE_PRIORITY_FEE
      else
        let totalFees := nonZeroFees.foldl (· + ·) 0
        let meanFee := totalFees / nonZeroFees.length
        if meanFee < BASE_PRIORITY_FEE then BASE_PRIORITY_FEE else meanFee

/-- `baseRetrySteps` (src/utils/setup.ts lines 116-119). -/
def baseRetrySteps : List Nat :=
  [250000, 500000, 1000000, 1500000, 2000000, 4000000, 8000000, 16000000, 32000000]

/-- The fee-escalation block of `sendWithRetry` (src/utils/setup.ts lines 159-164),
executed right after `attempt++`; `attempt` here is the already-incremented value. -/
def escalateFee (attempt fee : Nat) : Nat :=
  if attempt - 1 < baseRetrySteps.length then baseRetrySteps.getD (attempt - 1) 0
  else fee * 2

/-- Outcome of one `sendTransaction` call inside `sendWithRetry`: it returns a
signature, or throws an error whose message contains `block height exceeded`,
or throws some other error. -/
inductive SendOutcome where
  | success (sig : String)
  | errorExpired
  | errorOther (msg : String)
deriving DecidableEq

/-- Network oracle for one iteration of the `sendWithRetry` loop: the
`sendTransaction` outcome, the `getSignatureStatus` responses for the confirmation
poll after a successful send, and the responses for the re-check poll after a
`block height exceeded` error. -/
structure NetStep where
  send : SendOutcome
  pollAfterSend : List (Option ConfStatus)
  pollAfterExpiry : List (Option ConfStatus)
deriving DecidableEq

/-- Result of a `sendWithRetry` run.  `outOfSteps` means the oracle list was
exhausted while the loop was still running (the loop itself has no bound on
iterations that do not raise an expiry error). -/
inductive SendResult where
  | ok (sig : String)
  | error (msg : String)
  | outOfSteps
deriving DecidableEq

/-- Observable trace of a `sendWithRetry` run: the result, the priority fee passed to
`sendTransaction` on each iteration that performed a send (in order), and every
`getSignatureStatus` observation as a pair (queried signature, response). -/
structure SendRun where
  result : SendResult
  feesUsed : List Nat
  observed : List (String × Option ConfStatus)
deriving DecidableEq

/-- The `while` loop of `sendWithRetry` (src/utils/setup.ts lines 106-174).
State: `attempt` (incremented only on `block height exceeded` errors),
`signature` (last signature returned by a send, initially null), and the current
`prioritizationFee`.  Each loop iteration consumes one `NetStep` from the oracle. -/
def sendWithRetryGo : List NetStep → Nat → Option String → Nat → SendRun
  | [], attempt, _, _ =>
    if attempt < MAX_RETRIES then ⟨SendResult.outOfSteps, [], []⟩
    else ⟨SendResult.error "Transaction failed after multiple retries.", [], []⟩
  | ⟨SendOutcome.success sig, pollAfterSend, _⟩ :: rest, attempt, _, fee =>
    if attempt < MAX_RETRIES then
      let c := confirmTransactionWithPolling pollAfterSend
      let obs := c.2.map (fun s => (sig, s))
      if c.1 then ⟨SendResult.ok sig, [fee], obs⟩
      else
        let r := sendWithRetryGo rest attempt (some sig) fee
        ⟨r.result, fee :: r.feesUsed, obs ++ r.observed⟩
    else ⟨SendResult.error "Transaction failed after multiple retries.", [], []⟩
  | ⟨SendOutcome.errorExpired, _, pollAfterExpiry⟩ :: rest, attempt, some sig, fee =>
    if attempt < MAX_RETRIES then
      let c := confirmTransactionWithPolling pollAfterExpiry
      let obs := c.2.map (fun s => (sig, s))
      if c.1 then ⟨SendResult.ok sig, [fee], obs⟩
      else
        let r := sendWithRetryGo rest (attempt + 1) (some sig) (escalateFee (attempt + 1) fee)
        ⟨r.result, fee :: r.feesUsed, obs ++ r.observed⟩
    else ⟨SendResult.error "Transaction failed after multiple retries.", [], []⟩
  | ⟨SendOutcome.errorExpired, _, _⟩ :: rest, attempt, none, fee =>
    if attempt < MAX_RETRIES then
      let r := sendWithRetryGo rest (attempt + 1) none (escalateFee (attempt + 1) fee)
      ⟨r.result, fee :: r.feesUsed, r.observed⟩
    else ⟨SendResult.error "Transaction failed after multiple retries.", [], []⟩
  | ⟨SendOutcome.errorOther msg, _, _⟩ :: _, attempt, _, fee =>
    if attempt < MAX_RETRIES then
      ⟨SendResult.error ("Transaction failed: " ++ msg), [fee], []⟩
    else ⟨SendResult.error "Transaction failed after multiple retries.", [], []⟩

/-- `sendWithRetry` entry point: `attempt = 0`, `signature = null`, initial fee as
passed by the caller. -/
def sendWithRetry (steps : List NetStep) (fee : Nat) : SendRun :=
  sendWithRetryGo steps 0 none fee

/-- An iteration whose `sendTransaction` throws `block height exceeded` and whose
re-check poll never observes a confirmation. -/
def expiredStep : NetStep :=
  ⟨SendOutcome.errorExpired, [], []⟩

/-- An iteration whose send succeeds but whose confirmation poll times out
(no confirmed/finalized response). -/
def pendingStep : NetStep :=
  ⟨SendOutcome.success "sigPending", [], []⟩

/-- An iteration whose send succeeds and whose first status query reports
`confirmed`. -/
def confirmedStep (sig : String) : NetStep :=
  ⟨SendOutcome.success sig, [some ConfStatus.confirmed], []⟩

/-- Invariant linking the attempt counter of `sendWithRetry` to its current
priority fee in runs that start from attempt 0 with a fee of at most the first
escalation step: either no expiry has happened yet, or the fee is the schedule
entry for the current attempt, or the loop bound is already reached. -/
def FeeInv (attempt fee : Nat) : Prop :=
  (attempt = 0 ∧ fee ≤ 250000) ∨
  (1 ≤ attempt ∧ attempt ≤ 9 ∧ fee = baseRetrySteps.getD (attempt - 1) 0) ∨
  10 ≤ attempt

end Setup

namespace Market

/-- `MAX_SIGNATURES_PER_REQUEST` (src/utils/market.ts line 7). -/
def MAX_SIGNATURES_PER_REQUEST : Nat := 200

/-- `BATCH_TX_SIZE` (src/utils/market.ts line 8). -/
def BATCH_TX_SIZE : Nat := 5

/-- `MAX_RETRIES` (src/utils/market.ts line 9). -/
def MAX_RETRIES : Nat := 3

/-- Balance field of a market record: either a numeric `uiAmount` or the sentinel
string `'Unavailable'`.  `uiAmount` is an exact decimal number in the RPC response;
it is modelled as a rational (no arithmetic is ever performed on it). -/
inductive VaultBalance where
  | unavailable
  | amount (q : Rat)
deriving DecidableEq

/-- Payload of a decoded market-creation event (`event.data` after the external
Anchor decode), already projected to the strings the code extracts (with the
`'N/A'` / `'Unknown'` defaults applied by the source). -/
structure EventData where
  market : String
  baseMint : String
  quoteMint : String
  name : String
  baseVault : Option String
  quoteVault : Option String
deriving DecidableEq

/-- The `Market` record pushed into `marketsAll` (src/utils/market.ts lines 11-21). -/
structure MarketRec where
  market : String
  baseMint : String
  quoteMint : String
  name : String
  timestamp : Option Int
  baseVault : Option String
  quoteVault : Option String
  baseVaultBalance : VaultBalance
  quoteVaultBalance : VaultBalance
deriving DecidableEq

/-- The record built at src/utils/market.ts lines 136-146: balances start out as
`'Unavailable'`. -/
def mkMarketRec (ev : EventData) (blockTime : Option Int) : MarketRec :=
  ⟨ev.market, ev.baseMint, ev.quoteMint, ev.name, blockTime, ev.baseVault, ev.quoteVault,
    VaultBalance.unavailable, VaultBalance.unavailable⟩

/-- One fetched transaction, reduced to what the scan loop reads: its `blockTime`
and, for each inner instruction that passes the event-authority / program-id
validation, the outcome of the external Anchor decode (`none` models a decode that
throws or yields a null event, which the source skips with a warning; inner
instructions that fail validation merely `continue` and are not represented).
The nesting mirrors `tx.meta.innerInstructions` (a list of instruction groups). -/
structure TxData where
  blockTime : Option Int
  inner : List (List (Option EventData))
deriving DecidableEq

/-- Market records produced from one transaction returned by `getTransactions`
(src/utils/market.ts lines 94-153); `none` models a null transaction or one with
missing `meta.innerInstructions` / `staticAccountKeys`, which is skipped. -/
def txEvents : Option TxData → List MarketRec
  | none => []
  | some t =>
    t.inner.flatMap (fun grp => grp.filterMap (fun o => o.map (fun ev => mkMarketRec ev t.blockTime)))

/-- One entry of the event-authority's transaction history: a signature paired with
the transaction the RPC would return for it. -/
def LogEntry : Type := String × Option TxData

/-- The signature-pagination loop of `findAllMarkets` (src/utils/market.ts lines
48-66), run against an error-free RPC whose history is `remaining` (newest first):
each `getSignaturesForAddress` call returns the next page of up to
`MAX_SIGNATURES_PER_REQUEST` entries after the cursor.  Returns the collected
entries and the number of page fetches issued.  `fuel` only bounds the recursion;
`paginateLog` supplies more fuel than the loop can consume. -/
def paginateGo : Nat → List LogEntry → List LogEntry → Nat → List LogEntry × Nat
  | 0, _, acc, fetches => (acc, fetches)
  | fuel + 1, remaining, acc, fetches =>
    let page := remaining.take MAX_SIGNATURES_PER_REQUEST
    if page.length = 0 then (acc, fetches + 1)
    else if page.length < MAX_SIGNATURES_PER_REQUEST then (acc ++ page, fetches + 1)
    else paginateGo fuel (remaining.drop MAX_SIGNATURES_PER_REQUEST) (acc ++ page) (fetches + 1)

/-- Signature pagination over the full history. -/
def paginateLog (history : List LogEntry) : List LogEntry × Nat :=
  paginateGo (history.length + 1) history [] 0

/-- The per-batch retry loop of `findAllMarkets` (src/utils/market.ts lines 76-91):
`failures` is the oracle for how many consecutive `getTransactions` attempts throw
before one succeeds; `txs` is what a successful fetch returns.  If all
`MAX_RETRIES` attempts fail, `allTxs` keeps its initial value `[]` and the batch is
skipped. -/
def fetchBatchLoop : Nat → List (Option TxData) → Nat → List (Option TxData)
  | failures, txs, attempt =>
    if attempt < MAX_RETRIES then
      match failures with
      | 0 => txs
      | f + 1 => fetchBatchLoop f txs (attempt + 1)
    else []

/-- The batch loop of `findAllMarkets` (src/utils/market.ts lines 73-154): slice the
signature list into `BATCH_TX_SIZE`-sized batches, fetch each batch with bounded
retry (the per-batch failure counts are consumed positionally from
`batchFailures`, default 0 = first attempt succeeds), and decode every fetched
transaction's events in order.  `fuel` only bounds the recursion. -/
def processBatchesGo : Nat → List LogEntry → List Nat → List MarketRec
  | 0, _, _ => []
  | _ + 1, [], _ => []
  | fuel + 1, e :: es, batchFailures =>
    let batch := (e :: es).take BATCH_TX_SIZE
    let allTxs := fetchBatchLoop (batchFailures.headD 0) (batch.map (fun x => x.2)) 0
    allTxs.flatMap txEvents ++
      processBatchesGo fuel ((e :: es).drop BATCH_TX_SIZE) batchFailures.tail

/-- `findAllMarkets` (src/utils/market.ts lines 26-172) up to event decoding, against
an error-free signature-history RPC: returns the list of decoded market records and
the number of history-page fetches issued.  The optional vault-balance filling
phase (lines 157-168) only mutates the balance fields via `getVaultBalance`, which
is modelled separately below. -/
def findAllMarkets (history : List LogEntry) (batchFailures : List Nat) :
    List MarketRec × Nat :=
  let p := paginateLog history
  (processBatchesGo (p.1.length + 1) p.1 batchFailures, p.2)

/-- Outcome of one `getTokenAccountBalance` call: the RPC throws, or returns a
response whose `value.uiAmount` is the given optional number (`none` models a null
or absent `uiAmount`). -/
inductive FetchAttempt where
  | throws
  | returns (uiAmount : Option Rat)
deriving DecidableEq

/-- The retry loop of `getVaultBalance` (src/utils/market.ts lines 177-195).  Each
attempt consumes the next oracle entry; an exhausted oracle behaves like a throwing
attempt.  The source's falsy check `!balanceInfo?.value?.uiAmount` makes a null,
absent, or zero `uiAmount` return the sentinel `'Unavailable'`. -/
def getVaultBalanceGo : List FetchAttempt → Nat → VaultBalance
  | oracle, attempts =>
    if attempts < MAX_RETRIES then
      match oracle with
      | [] => VaultBalance.unavailable
      | FetchAttempt.throws :: rest => getVaultBalanceGo rest (attempts + 1)
      | FetchAttempt.returns ui :: _ =>
        match ui with
        | none => VaultBalance.unavailable
        | some q => if q = 0 then VaultBalance.unavailable else VaultBalance.amount q
    else VaultBalance.unavailable

/-- `getVaultBalance` entry point: `attempts = 0`. -/
def getVaultBalance (oracle : List FetchAttempt) : VaultBalance :=
  getVaultBalanceGo oracle 0

/-- A sample decoded creation event, used for concrete witnesses. -/
def sampleEvent : EventData :=
  ⟨"marketPk", "baseMintPk", "quoteMintPk", "MKT-NAME", some "baseVaultPk", some "quoteVaultPk"⟩

/-- A sample transaction containing exactly one decodable creation event. -/
def sampleTx : TxData :=
  ⟨some 1700000000, [[some sampleEvent]]⟩

end Market

/-! ## Helper lemmas: Submission Engine -/

namespace Setup

/-- If the polling loop reports success, one of the statuses it observed was
confirmed or finalized. -/
theorem confirmPollGo_true (resp : List (Option ConfStatus)) (n : Nat)
    (h : (confirmPollGo resp n).1 = true) :
    ∃ st ∈ (confirmPollGo resp n).2, isConfirmedOrFinalized st = true := by
  induction resp generalizing n with
  | nil => cases n <;> simp [confirmPollGo] at h
  | cons s rest ih =>
    cases n with
    | zero => simp [confirmPollGo] at h
    | succ m =>
      by_cases hs : isConfirmedOrFinalized s = true
      · exact ⟨s, by simp [confirmPollGo, hs], hs⟩
      · rw [confirmPollGo] at h ⊢
        simp only [hs, Bool.false_eq_true, if_false] at h ⊢
        obtain ⟨st, hmem, hst⟩ := ih m h
        exact ⟨st, List.mem_cons_of_mem _ hmem, hst⟩

/-- Once the attempt counter has reached `MAX_RETRIES`, the loop performs no network
activity at all: it raises the terminal error with empty fee and observation
traces, whatever the network would have answered. -/
theorem sendWithRetryGo_maxed (steps : List NetStep) (attempt : Nat) (sig : Option String)
    (fee : Nat) (h : MAX_RETRIES ≤ attempt) :
    sendWithRetryGo steps attempt sig fee
      = ⟨SendResult.error "Transaction failed after multiple retries.", [], []⟩ := by
  match steps, sig with
  | [], _ => rw [sendWithRetryGo]; simp [Nat.not_lt.mpr h]
  | ⟨SendOutcome.success s, ps, pe⟩ :: rest, _ =>
    rw [sendWithRetryGo]; simp [Nat.not_lt.mpr h]
  | ⟨SendOutcome.errorExpired, ps, pe⟩ :: rest, some s =>
    rw [sendWithRetryGo]; simp [Nat.not_lt.mpr h]
  | ⟨SendOutcome.errorExpired, ps, pe⟩ :: rest, none =>
    rw [sendWithRetryGo]; simp [Nat.not_lt.mpr h]
  | ⟨SendOutcome.errorOther m, ps, pe⟩ :: rest, _ =>
    rw [sendWithRetryGo]; simp [Nat.not_lt.mpr h]

/-- Escalating from a state satisfying `FeeInv` does not decrease the fee and
preserves the invariant. -/
theorem feeInv_step {attempt fee : Nat} (hinv : FeeInv attempt fee)
    (hlt : attempt < MAX_RETRIES) :
    fee ≤ escalateFee (attempt + 1) fee ∧ FeeInv (attempt + 1) (escalateFee (attempt + 1) fee) := by
  rcases hinv with ⟨h0, hle⟩ | ⟨h1, h9, hfee⟩ | h10
  · subst h0
    refine ⟨?_, Or.inr (Or.inl ⟨by omega, by omega, ?_⟩)⟩
    · simpa [escalateFee, baseRetrySteps] using hle
    · simp [escalateFee, baseRetrySteps]
  · rcases Nat.lt_or_ge attempt 9 with h8 | h9'
    · subst hfee
      constructor
      · have : escalateFee (attempt + 1) (baseRetrySteps.getD (attempt - 1) 0)
            = baseRetrySteps.getD attempt 0 := by
          simp [escalateFee, baseRetrySteps]
          omega
        rw [this]
        interval_cases attempt <;> simp [baseRetrySteps]
      · refine Or.inr (Or.inl ⟨by omega, by omega, ?_⟩)
        simp [escalateFee, baseRetrySteps]
        omega
    · have h9e : attempt = 9 := by omega
      subst h9e
      constructor
      · simp [escalateFee, baseRetrySteps]
        omega
      · exact Or.inr (Or.inr (by omega))
  · have : MAX_RETRIES = 10 := rfl
    omega

/-- In any run whose state satisfies `FeeInv`, the per-iteration fee trace is
non-decreasing, and every fee in it is at least the current fee. -/
theorem sendWithRetryGo_fees_chain (steps : List NetStep) (attempt : Nat) (sig : Option String)
    (fee : Nat) (hinv : FeeInv attempt fee) :
    List.Chain' (· ≤ ·) ((sendWithRetryGo steps attempt sig fee).feesUsed) ∧
    ∀ g ∈ (sendWithRetryGo steps attempt sig fee).feesUsed, fee ≤ g := by
  induction steps generalizing attempt sig fee with
  | nil =>
    by_cases hlt : attempt < MAX_RETRIES <;>
      simp [sendWithRetryGo, hlt]
  | cons step rest ih =>
    obtain ⟨send, ps, pe⟩ := step
    by_cases hlt : attempt < MAX_RETRIES
    · cases send with
      | success sig' =>
        rw [sendWithRetryGo]
        by_cases hc : (confirmTransactionWithPolling ps).1 = true
        · simp [hlt, hc]
        · simp only [hlt, if_true, hc, Bool.false_eq_true, if_false]
          obtain ⟨hch, hbd⟩ := ih attempt (some sig') fee hinv
          refine ⟨List.chain'_cons'.mpr ⟨fun y hy => hbd y (List.mem_of_mem_head? hy), hch⟩, ?_⟩
          intro g hg
          rcases List.mem_cons.mp hg with hg | hg
          · omega
          · exact hbd g hg
      | errorExpired =>
        obtain ⟨hup, hinv'⟩ := feeInv_step hinv hlt
        cases sig with
        | some s' =>
          rw [sendWithRetryGo]
          by_cases hc : (confirmTransactionWithPolling pe).1 = true
          · simp [hlt, hc]
          · simp only [hlt, if_true, hc, Bool.false_eq_true, if_false]
            obtain ⟨hch, hbd⟩ := ih (attempt + 1) (some s') (escalateFee (attempt + 1) fee) hinv'
            refine ⟨List.chain'_cons'.mpr
              ⟨fun y hy => le_trans hup (hbd y (List.mem_of_mem_head? hy)), hch⟩, ?_⟩
            intro g hg
            rcases List.mem_cons.mp hg with hg | hg
            · omega
            · exact le_trans hup (hbd g hg)
        | none =>
          rw [sendWithRetryGo]
          simp only [hlt, if_true]
          obtain ⟨hch, hbd⟩ := ih (attempt + 1) none (escalateFee (attempt + 1) fee) hinv'
          refine ⟨List.chain'_cons'.mpr
            ⟨fun y hy => le_trans hup (hbd y (List.mem_of_mem_head? hy)), hch⟩, ?_⟩
          intro g hg
          rcases List.mem_cons.mp hg with hg | hg
          · omega
          · exact le_trans hup (hbd g hg)
      | errorOther msg =>
        rw [sendWithRetryGo]
        simp [hlt]
    · rw [sendWithRetryGo_maxed _ _ _ _ (Nat.le_of_not_lt hlt)]
      simp

/-- Any run of the retry loop that returns `ok s` has recorded a confirmed or
finalized status observation for the signature `s`. -/
theorem sendWithRetryGo_ok_observed (steps : List NetStep) (attempt : Nat) (sig0 : Option String)
    (fee : Nat) (s : String)
    (h : (sendWithRetryGo steps attempt sig0 fee).result = SendResult.ok s) :
    ∃ st, (s, st) ∈ (sendWithRetryGo steps attempt sig0 fee).observed ∧
      isConfirmedOrFinalized st = true := by
  induction steps generalizing attempt sig0 fee with
  | nil =>
    by_cases hlt : attempt < MAX_RETRIES <;> simp [sendWithRetryGo, hlt] at h
  | cons step rest ih =>
    obtain ⟨send, ps, pe⟩ := step
    by_cases hlt : attempt < MAX_RETRIES
    · cases send with
      | success sig' =>
        rw [sendWithRetryGo] at h ⊢
        by_cases hc : (confirmTransactionWithPolling ps).1 = true
        · simp only [hlt, if_true, hc] at h ⊢
          have hs : sig' = s := by simpa using h
          subst hs
          obtain ⟨st, hmem, hst⟩ := confirmPollGo_true ps maxChecks hc
          exact ⟨st, by simpa using List.mem_map_of_mem (fun t => (sig', t)) hmem, hst⟩
        · simp only [hlt, if_true, hc, Bool.false_eq_true, if_false] at h ⊢
          obtain ⟨st, hmem, hst⟩ := ih attempt (some sig') fee h
          exact ⟨st, List.mem_append_right _ hmem, hst⟩
      | errorExpired =>
        cases sig0 with
        | some s' =>
          rw [sendWithRetryGo] at h ⊢
          by_cases hc : (confirmTransactionWithPolling pe).1 = true
          · simp only [hlt, if_true, hc] at h ⊢
            have hs : s' = s := by simpa using h
            subst hs
            obtain ⟨st, hmem, hst⟩ := confirmPollGo_true pe maxChecks hc
            exact ⟨st, by simpa using List.mem_map_of_mem (fun t => (s', t)) hmem, hst⟩
          · simp only [hlt, if_true, hc, Bool.false_eq_true, if_false] at h ⊢
            obtain ⟨st, hmem, hst⟩ := ih (attempt + 1) (some s') (escalateFee (attempt + 1) fee) h
            exact ⟨st, List.mem_append_right _ hmem, hst⟩
        | none =>
          rw [sendWithRetryGo] at h ⊢
          simp only [hlt, if_true] at h ⊢
          obtain ⟨st, hmem, hst⟩ := ih (attempt + 1) none (escalateFee (attempt + 1) fee) h
          exact ⟨st, hmem, hst⟩
      | errorOther msg =>
        rw [sendWithRetryGo] at h
        simp [hlt] at h
    · rw [sendWithRetryGo_maxed _ _ _ _ (Nat.le_of_not_lt hlt)] at h
      simp at h

/-! ## Claim theorems: Submission Engine -/

/-- C1 (counterexample): the fee schedule is NOT monotonically non-decreasing for
every initial fee.  With initial fee 300000 (a value the dynamic estimator can
produce), the first expiry escalates DOWN to the fixed first step 250000: the fee
used on retry attempt 1 is strictly below the fee used on attempt 0. -/
theorem sendWithRetry_fee_monotone_cex :
    (sendWithRetry [expiredStep, confirmedStep "sig"] 300000).feesUsed = [300000, 250000] ∧
    ¬ List.Chain' (· ≤ ·) ((sendWithRetry [expiredStep, confirmedStep "sig"] 300000).feesUsed) := by
  have hfees : (sendWithRetry [expiredStep, confirmedStep "sig"] 300000).feesUsed
      = [300000, 250000] := by decide
  refine ⟨hfees, ?_⟩
  intro hch
  rw [hfees] at hch
  have hle := (List.chain'_cons.mp hch).1
  omega

/-- C1 (amended): within one logical submission, the priority fees used on
successive iterations of `sendWithRetry` are monotonically non-decreasing
provided the initial fee is at most 250000, the first entry of the fixed
escalation schedule.  (For larger initial fees the first escalation resets the
fee down to 250000, as the counterexample shows.) -/
theorem sendWithRetry_fee_monotone_from_low_start (steps : List NetStep) (fee : Nat)
    (hfee : fee ≤ 250000) :
    List.Chain' (· ≤ ·) ((sendWithRetry steps fee).feesUsed) :=
  (sendWithRetryGo_fees_chain steps 0 none fee (Or.inl ⟨rfl, hfee⟩)).1

/-- Witness for the amended C1 at a concrete run: initial fee 10000, one expiry,
one pending iteration, another expiry, then confirmation. -/
theorem sendWithRetry_fee_monotone_from_low_start_witness :
    List.Chain' (· ≤ ·)
      ((sendWithRetry [expiredStep, pendingStep, expiredStep, confirmedStep "sig"] 10000).feesUsed) :=
  sendWithRetry_fee_monotone_from_low_start
    [expiredStep, pendingStep, expiredStep, confirmedStep "sig"] 10000 (by decide)

/-- C2: with one instruction list, initial fee 10000 and the configured maximum of
`MAX_RETRIES = 10` attempts, if the network reports a blockhash-expiry error on
attempts 1-3 and confirms on attempt 4, the fees used are exactly
10000, 250000, 500000, 1000000 and the run returns the transaction id produced on
attempt 4. -/
theorem sendWithRetry_expiry_scenario :
    sendWithRetry [expiredStep, expiredStep, expiredStep, confirmedStep "sig4"] 10000
      = ⟨SendResult.ok "sig4", [10000, 250000, 500000, 1000000],
          [("sig4", some ConfStatus.confirmed)]⟩ := by
  decide

/-- C3: `sendWithRetry` returns a success result `ok s` only if at least one
`getSignatureStatus` observation for the identifier `s` reported a confirmed or
finalized status; no other path returns success. -/
theorem sendWithRetry_success_requires_confirmation (steps : List NetStep) (fee : Nat)
    (s : String) (h : (sendWithRetry steps fee).result = SendResult.ok s) :
    ∃ st, (s, st) ∈ (sendWithRetry steps fee).observed ∧ isConfirmedOrFinalized st = true :=
  sendWithRetryGo_ok_observed steps 0 none fee s h

/-- Witness for C3 at a concrete run that confirms on the first attempt. -/
theorem sendWithRetry_success_requires_confirmation_witness :
    ∃ st, ("sig1", st) ∈ (sendWithRetry [confirmedStep "sig1"] 10000).observed ∧
      isConfirmedOrFinalized st = true :=
  sendWithRetry_success_requires_confirmation [confirmedStep "sig1"] 10000 "sig1" (by decide)

/-- C4: the dynamic priority-fee estimator returns the (integer) mean of the
non-zero samples floored at `BASE_PRIORITY_FEE`; if the sample list is empty or
every sample is zero it returns exactly the base fee; and a failed fetch degrades
to the base fee (the function is total: no error is raised). -/
theorem getDynamicPriorityFee_spec :
    getDynamicPriorityFee FeesFetch.failure = BASE_PRIORITY_FEE ∧
    (∀ fees : List Nat, fees.filter (fun fee => 0 < fee) = [] →
        getDynamicPriorityFee (FeesFetch.success fees) = BASE_PRIORITY_FEE) ∧
    (∀ fees : List Nat, fees.filter (fun fee => 0 < fee) ≠ [] →
        getDynamicPriorityFee (FeesFetch.success fees)
          = max BASE_PRIORITY_FEE
              ((fees.filter (fun fee => 0 < fee)).sum /
                (fees.filter (fun fee => 0 < fee)).length)) := by
  refine ⟨rfl, ?_, ?_⟩
  · intro fees h
    cases fees with
    | nil => rfl
    | cons f fs =>
      rw [getDynamicPriorityFee]
      simp only [List.length_cons, Nat.succ_ne_zero, if_false]
      simp [h]
  · intro fees h
    have hlen : ¬ fees.length = 0 := by
      intro h0
      rw [List.length_eq_zero] at h0
      subst h0
      simp at h
    have hflen : ¬ (fees.filter (fun fee => 0 < fee)).length = 0 := by
      rw [List.length_eq_zero]
      exact h
    rw [getDynamicPriorityFee]
    simp only [hlen, if_false, hflen]
    rw [← List.sum_eq_foldl]
    rcases Nat.lt_or_ge
        ((fees.filter (fun fee => 0 < fee)).sum / (fees.filter (fun fee => 0 < fee)).length)
        BASE_PRIORITY_FEE with hm | hm
    · simp [hm, Nat.max_eq_left (Nat.le_of_lt hm)]
    · simp [Nat.not_lt.mpr hm, Nat.max_eq_right hm]

/-- Witness for C4: an all-zero sample list yields the base fee; samples
`[20000, 30000]` yield the floored mean of the non-zero samples. -/
theorem getDynamicPriorityFee_spec_witness :
    getDynamicPriorityFee (FeesFetch.success [0, 0]) = BASE_PRIORITY_FEE ∧
    getDynamicPriorityFee (FeesFetch.success [20000, 30000])
      = max BASE_PRIORITY_FEE
          ((([20000, 30000] : List Nat).filter (fun fee => 0 < fee)).sum /
            (([20000, 30000] : List Nat).filter (fun fee => 0 < fee)).length) :=
  ⟨getDynamicPriorityFee_spec.2.1 [0, 0] (by decide),
   getDynamicPriorityFee_spec.2.2 [20000, 30000] (by decide)⟩

/-- C5: when the attempt counter has exhausted the configured maximum
(`MAX_RETRIES = 10`) without a confirmation, the engine raises the terminal error
`Transaction failed after multiple retries.` and performs no further network calls
(no sends, no status queries), whatever the network would answer; in particular a
full run in which all 10 attempts expire raises that error, uses exactly the 10
fees `fee :: baseRetrySteps`, and never touches the oracle entries beyond the
10th. -/
theorem sendWithRetry_exhaustion_terminal :
    (∀ (steps : List NetStep) (attempt : Nat) (sig : Option String) (fee : Nat),
        MAX_RETRIES ≤ attempt →
        sendWithRetryGo steps attempt sig fee
          = ⟨SendResult.error "Transaction failed after multiple retries.", [], []⟩) ∧
    (∀ (extra : List NetStep) (fee : Nat),
        sendWithRetry (List.replicate MAX_RETRIES expiredStep ++ extra) fee
          = ⟨SendResult.error "Transaction failed after multiple retries.",
              fee :: baseRetrySteps, []⟩) := by
  refine ⟨sendWithRetryGo_maxed, ?_⟩
  intro extra fee
  simp [sendWithRetry, MAX_RETRIES, List.replicate, sendWithRetryGo, expiredStep,
    escalateFee, baseRetrySteps, sendWithRetryGo_maxed]

/-- Witness for C5: the terminal state at attempt 10, and a concrete exhausted
run with an extra oracle entry that is never consumed. -/
theorem sendWithRetry_exhaustion_terminal_witness :
    sendWithRetryGo [confirmedStep "late"] MAX_RETRIES none 10000
      = ⟨SendResult.error "Transaction failed after multiple retries.", [], []⟩ ∧
    sendWithRetry (List.replicate MAX_RETRIES expiredStep ++ [confirmedStep "late"]) 10000
      = ⟨SendResult.error "Transaction failed after multiple retries.",
          10000 :: baseRetrySteps, []⟩ :=
  ⟨sendWithRetry_exhaustion_terminal.1 [confirmedStep "late"] MAX_RETRIES none 10000
      (Nat.le_refl _),
   sendWithRetry_exhaustion_terminal.2 [confirmedStep "late"] 10000⟩

/-- C9: an iteration whose send succeeds but whose confirmation polling merely
times out does not increment the attempt counter: a run fed `n` such pending
iterations performs `n` sends (all at the unchanged fee) for EVERY `n` — in
particular more than `MAX_RETRIES` — and never reaches the terminal retry error,
so the number of submissions in one call is not bounded by `MAX_RETRIES`. -/
theorem sendWithRetry_pending_iterations_unbounded (n : Nat) (sig : Option String) (fee : Nat) :
    sendWithRetryGo (List.replicate n pendingStep) 0 sig fee
      = ⟨SendResult.outOfSteps, List.replicate n fee, []⟩ := by
  induction n generalizing sig with
  | zero => simp [sendWithRetryGo, MAX_RETRIES]
  | succ m ih =>
    have hpend : pendingStep = (⟨SendOutcome.success "sigPending", [], []⟩ : NetStep) := rfl
    rw [List.replicate_succ, hpend]
    rw [hpend] at ih
    rw [sendWithRetryGo]
    simp [MAX_RETRIES, confirmTransactionWithPolling, confirmPollGo, maxChecks, ih,
      List.replicate_succ]

end Setup

/-! ## Helper lemmas: Market Discovery -/

namespace Market

/-- The pagination loop collects the whole history and issues
`length / page-size + 1` page fetches, given sufficient fuel. -/
theorem paginateGo_spec (fuel : Nat) :
    ∀ (remaining acc : List LogEntry) (fetches : Nat),
      remaining.length / MAX_SIGNATURES_PER_REQUEST + 1 ≤ fuel →
      paginateGo fuel remaining acc fetches
        = (acc ++ remaining, fetches + remaining.length / MAX_SIGNATURES_PER_REQUEST + 1) := by
  induction fuel with
  | zero =>
    intro remaining acc fetches h
    exact absurd h (Nat.not_succ_le_zero _)
  | succ m ih =>
    intro remaining acc fetches h
    rw [paginateGo]
    simp only [List.length_take]
    by_cases h0 : remaining.length = 0
    · have hnil : remaining = [] := List.length_eq_zero.mp h0
      subst hnil
      simp [MAX_SIGNATURES_PER_REQUEST]
    · by_cases hlt : remaining.length < MAX_SIGNATURES_PER_REQUEST
      · have hmin : min MAX_SIGNATURES_PER_REQUEST remaining.length = remaining.length := by
          omega
        rw [hmin]
        rw [if_neg h0, if_pos hlt]
        rw [List.take_of_length_le (Nat.le_of_lt hlt)]
        rw [Nat.div_eq_of_lt hlt]
      · have hge : MAX_SIGNATURES_PER_REQUEST ≤ remaining.length := Nat.le_of_not_lt hlt
        have hpos : 0 < MAX_SIGNATURES_PER_REQUEST := by
          simp [MAX_SIGNATURES_PER_REQUEST]
        have hmin : min MAX_SIGNATURES_PER_REQUEST remaining.length
            = MAX_SIGNATURES_PER_REQUEST := by omega
        rw [hmin]
        rw [if_neg (by omega), if_neg (by omega)]
        have hdiv : remaining.length / MAX_SIGNATURES_PER_REQUEST
            = (remaining.length - MAX_SIGNATURES_PER_REQUEST) / MAX_SIGNATURES_PER_REQUEST + 1 :=
          Nat.div_eq_sub_div hpos hge
        have hdroplen : (remaining.drop MAX_SIGNATURES_PER_REQUEST).length
            = remaining.length - MAX_SIGNATURES_PER_REQUEST := List.length_drop _ _
        rw [ih (remaining.drop MAX_SIGNATURES_PER_REQUEST)
              (acc ++ remaining.take MAX_SIGNATURES_PER_REQUEST) (fetches + 1)
              (by rw [hdroplen]; omega)]
        rw [List.append_assoc, List.take_append_drop, hdroplen, Prod.mk.injEq]
        exact ⟨rfl, by omega⟩

/-- `paginateLog` returns the whole history and `length / 200 + 1` fetches. -/
theorem paginateLog_eq (history : List LogEntry) :
    paginateLog history
      = (history, history.length / MAX_SIGNATURES_PER_REQUEST + 1) := by
  rw [paginateLog, paginateGo_spec (history.length + 1) history [] 0
      (by have := Nat.div_le_self history.length MAX_SIGNATURES_PER_REQUEST; omega)]
  simp

/-- A batch whose first fetch attempt succeeds returns the fetched transactions. -/
theorem fetchBatchLoop_ok (txs : List (Option TxData)) : fetchBatchLoop 0 txs 0 = txs := rfl

/-- A batch whose fetch fails on all `MAX_RETRIES` attempts is skipped: the
transaction list stays empty. -/
theorem fetchBatchLoop_fail (txs : List (Option TxData)) :
    fetchBatchLoop MAX_RETRIES txs 0 = [] := rfl

/-- When every batch fetch succeeds, the batch loop decodes the events of every
transaction of the signature list, in order. -/
theorem processBatchesGo_all_ok (fuel : Nat) :
    ∀ entries : List LogEntry, entries.length < fuel →
      processBatchesGo fuel entries [] = entries.flatMap (fun e => txEvents e.2) := by
  induction fuel with
  | zero =>
    intro entries h
    omega
  | succ m ih =>
    intro entries h
    match entries with
    | [] => simp [processBatchesGo]
    | e :: es =>
      rw [processBatchesGo]
      simp only [List.headD_nil, List.tail_nil]
      rw [fetchBatchLoop_ok, List.flatMap_map]
      rw [ih ((e :: es).drop BATCH_TX_SIZE)
            (by simp only [List.length_drop, BATCH_TX_SIZE]; simp [BATCH_TX_SIZE] at h ⊢; omega)]
      conv_rhs => rw [← List.take_append_drop BATCH_TX_SIZE (e :: es)]
      rw [List.flatMap_append]

/-- If batch `j` (0-based) fails all its fetch attempts and every other batch
succeeds, the batch loop returns exactly the events of all signatures outside
batch `j`. -/
theorem processBatchesGo_skip (j : Nat) :
    ∀ (fuel : Nat) (entries : List LogEntry), entries.length < fuel →
      processBatchesGo fuel entries (List.replicate j 0 ++ [MAX_RETRIES])
        = (entries.take (BATCH_TX_SIZE * j)
            ++ entries.drop (BATCH_TX_SIZE * j + BATCH_TX_SIZE)).flatMap
            (fun e => txEvents e.2) := by
  induction j with
  | zero =>
    intro fuel entries h
    match fuel, entries with
    | m + 1, [] => simp [processBatchesGo]
    | m + 1, e :: es =>
      rw [processBatchesGo]
      simp only [List.replicate, List.nil_append, List.headD_cons, List.tail_cons]
      rw [fetchBatchLoop_fail]
      rw [processBatchesGo_all_ok m ((e :: es).drop BATCH_TX_SIZE)
            (by simp only [List.length_drop]; simp [BATCH_TX_SIZE] at h ⊢; omega)]
      simp
  | succ k ih =>
    intro fuel entries h
    match fuel, entries with
    | m + 1, [] => simp [processBatchesGo]
    | m + 1, e :: es =>
      rw [processBatchesGo]
      rw [List.replicate_succ, List.cons_append]
      simp only [List.headD_cons, List.tail_cons]
      rw [fetchBatchLoop_ok, List.flatMap_map]
      rw [ih m ((e :: es).drop BATCH_TX_SIZE)
            (by simp only [List.length_drop]; simp [BATCH_TX_SIZE] at h ⊢; omega)]
      have hB1 : BATCH_TX_SIZE * (k + 1) = BATCH_TX_SIZE + BATCH_TX_SIZE * k := by
        simp [BATCH_TX_SIZE]
        omega
      have hB2 : BATCH_TX_SIZE + BATCH_TX_SIZE * k + BATCH_TX_SIZE
          = BATCH_TX_SIZE + (BATCH_TX_SIZE * k + BATCH_TX_SIZE) := by
        omega
      rw [hB1, hB2, List.take_add, ← List.drop_drop]
      simp [List.flatMap_append, List.append_assoc]
      rw [hB2]

/-- Once the attempt counter of `getVaultBalance` has reached `MAX_RETRIES`, the
loop gives up and returns the sentinel, whatever the oracle holds. -/
theorem getVaultBalanceGo_maxed (oracle : List FetchAttempt) (attempts : Nat)
    (h : MAX_RETRIES ≤ attempts) :
    getVaultBalanceGo oracle attempts = VaultBalance.unavailable := by
  rw [getVaultBalanceGo.eq_def]
  simp [Nat.not_lt.mpr h]

/-! ## Claim theorems: Market Discovery -/

/-- C6 (counterexample): the claim says the utility issues exactly
`P = ceil(N / page size)` history-page fetches.  For a transaction log with
`N = 0` creation events (`P = 0` pages) the utility still issues one page fetch
(the loop always performs a first `getSignaturesForAddress` call), so the fetch
count is 1, not `ceil(0/200) = 0`. -/
theorem findAllMarkets_page_fetches_cex :
    ¬ ((findAllMarkets ([] : List LogEntry) []).2
        = (([] : List LogEntry).length + MAX_SIGNATURES_PER_REQUEST - 1)
            / MAX_SIGNATURES_PER_REQUEST) := by
  decide

/-- C6 (amended): for a transaction log of `N` creation events, one per logged
signature, the utility issues exactly `N / 200 + 1` history-page fetches — which
equals `ceil(N / 200)` whenever the page size does not divide `N`, and one more
than that when it does (including `N = 0`) — and, when every transaction batch
fetch and every event decode succeeds, its output contains exactly `N` decoded
market records. -/
theorem findAllMarkets_counts (history : List LogEntry)
    (hone : ∀ e ∈ history, (txEvents e.2).length = 1) :
    (findAllMarkets history []).1.length = history.length ∧
    (findAllMarkets history []).2 = history.length / MAX_SIGNATURES_PER_REQUEST + 1 := by
  constructor
  · simp only [findAllMarkets, paginateLog_eq]
    rw [processBatchesGo_all_ok (history.length + 1) history (Nat.lt_succ_self _)]
    rw [List.length_flatMap]
    have hmap : history.map (List.length ∘ fun e => txEvents e.2)
        = history.map (fun _ => 1) :=
      List.map_congr_left (fun e he => hone e he)
    rw [hmap]
    simp
  · simp [findAllMarkets, paginateLog_eq]

/-- Witness for the amended C6: a concrete log of two signatures, each holding one
decodable creation event, yields two market records from one page fetch. -/
theorem findAllMarkets_counts_witness :
    (findAllMarkets [("sig1", some sampleTx), ("sig2", some sampleTx)] []).1.length = 2 ∧
    (findAllMarkets [("sig1", some sampleTx), ("sig2", some sampleTx)] []).2
      = ([("sig1", some sampleTx), ("sig2", some sampleTx)] : List LogEntry).length
          / MAX_SIGNATURES_PER_REQUEST + 1 :=
  findAllMarkets_counts [("sig1", some sampleTx), ("sig2", some sampleTx)] (by decide)

/-- C7: the batch (here the `j`-th, 0-based) whose `getTransactions` fetch fails on
all `MAX_RETRIES = 3` attempts is skipped without raising an exception (the model
returns normally), and the returned market list consists of exactly the decoded
events of the signatures outside that batch: the result is reduced by precisely
the events contained in the failed batch. -/
theorem findAllMarkets_failed_batch_skipped (history : List LogEntry) (j : Nat) :
    (findAllMarkets history (List.replicate j 0 ++ [MAX_RETRIES])).1
      = (history.take (BATCH_TX_SIZE * j)
          ++ history.drop (BATCH_TX_SIZE * j + BATCH_TX_SIZE)).flatMap
          (fun e => txEvents e.2) := by
  simp only [findAllMarkets, paginateLog_eq]
  exact processBatchesGo_skip j (history.length + 1) history (Nat.lt_succ_self _)

/-- C8: when all `MAX_RETRIES = 3` balance-fetch attempts throw, `getVaultBalance`
returns the sentinel `'Unavailable'` for the record's balance field — and, being a
total function, raises no exception — whatever responses would have followed. -/
theorem getVaultBalance_all_retries_fail (rest : List FetchAttempt) :
    getVaultBalance (FetchAttempt.throws :: FetchAttempt.throws :: FetchAttempt.throws :: rest)
      = VaultBalance.unavailable := by
  simp [getVaultBalance, getVaultBalanceGo, MAX_RETRIES, getVaultBalanceGo_maxed]

/-- C10: a successful balance fetch that reports a `uiAmount` of exactly 0 (or an
absent amount) yields the sentinel `'Unavailable'` rather than the numeric balance
0 — the same value produced when every fetch fails — so a zero-balance vault is
indistinguishable in the output from a vault whose balance could not be fetched. -/
theorem getVaultBalance_zero_reported_unavailable (rest : List FetchAttempt) :
    getVaultBalance (FetchAttempt.returns (some 0) :: rest) = VaultBalance.unavailable ∧
    getVaultBalance (FetchAttempt.returns none :: rest) = VaultBalance.unavailable := by
  constructor <;> rfl

end Market

end OBClient
